import Mathlib

/-!
# Verification of the recommendation engine of `news_app.py`

This file shallowly embeds the recommendation / ranking engine of the
Personalised-News-App repository, i.e. the function
`get_personalized_recommendations(user_id, all_articles, activity_limit=100,
min_recommendations=5)` of `news_app.py` (lines 620-726), together with the
constants and helpers it uses (`DEFAULT_PAGE_SIZE = 15`, the keyword regex
`\b\w{4,}\b`, the activity keyword sets, the scoring loop, the recency boost,
the ranking and the backfill), and proves properties of that embedding.

Modelling decisions, all recorded next to the relevant definitions:

* Articles and interactions are Python dicts in the source; they are embedded
  as structures with the string fields the function reads.  A missing or
  `None` field is embedded as the empty string, matching the source's
  `article.get('title', '') or ''` accesses.
* `get_user_activity(user_id, limit)` performs Firestore I/O and returns a
  newest-first list of interaction dicts (empty on any error).  The embedding
  takes that resulting list as an explicit argument `user_activity`.
* `datetime.fromisoformat(s.replace('Z', '+00:00'))` and
  `datetime.now(timezone.utc)` are embedded as an explicit parameter
  `parseDate : String → Option Int` (returning an epoch timestamp in seconds,
  `none` when the source would raise `ValueError`/`TypeError`) and a
  parameter `now : Int`.  Timestamps are modelled at second resolution;
  nothing in the engine depends on finer resolution.
* Python's floating-point scores are all of the form `k/2` with exact float
  arithmetic (weights `5`, `3`, `1`, boosts `3` and `1.5`), so scores are
  embedded as the integer number of half points: weights `10`, `6`, `2` and
  boosts `6` and `3`.  The map `s ↦ 2*s` is strictly monotone, so every
  comparison the source performs (`score > 0`, the descending sort) is
  preserved exactly.
* `list.sort(key=k, reverse=True)` is Python's stable sort in descending key
  order; it is embedded as `List.insertionSort` with the total relation
  "left key is ≥ right key", which is sorted-descending and stable in the
  same sense.
* String comparison (`publishedAt` sort keys) is code-point lexicographic in
  both Python and Lean.
-/

set_option maxHeartbeats 1000000

namespace NewsApp

/-- Value of the module constant `DEFAULT_PAGE_SIZE` in `news_app.py`. -/
def DEFAULT_PAGE_SIZE : Nat := 15

/-- A word character for the regex `\w` (ASCII fragment): letters, digits and
the underscore. -/
def isWordChar (c : Char) : Bool := c.isAlphanum || c == '_'

/-- The matches of `re.compile(r'\b\w{4,}\b').findall(s)`: the maximal runs of
word characters of length at least 4. -/
def tokenize (s : String) : List String :=
  ((s.toList.splitOnP (fun c => !isWordChar c)).filter (fun w => 4 ≤ w.length)).map
    (fun w => String.mk w)

/-- The keyword set `set(keyword_regex.findall(s))` of a (already lowercased)
text. -/
def keywordSet (s : String) : Finset String := (tokenize s).toFinset

/-- Python's `str.lower()` (ASCII fragment), character by character. -/
def lowerStr (s : String) : String := String.mk (s.toList.map Char.toLower)

/-- Python's `not s.strip()`: `true` iff the string is all whitespace. -/
def isBlank (s : String) : Bool := s.toList.all Char.isWhitespace

/-- An article record, with the fields `get_personalized_recommendations`
reads.  A field that is missing or `None` in the source dict is embedded as
`""` (the source reads fields with `article.get('title', '') or ''` and
`article.get('publishedAt', '')`). -/
structure Article where
  title : String
  description : String
  url : String
  publishedAt : String
deriving DecidableEq

/-- One activity-log record, with the fields the recommender reads.  The
`action_type` is kept as a raw string; the source only compares it against
the literals `'like'`, `'save'`, `'dislike'` and `'view'`. -/
structure Interaction where
  article_url : String
  article_title : String
  article_description : String
  action_type : String
deriving DecidableEq

/-- The combined lowered text of an activity row:
`f"{activity.get('article_title', '') or ''} {activity.get('article_description', '') or ''}".lower()`. -/
def Interaction.textContent (i : Interaction) : String :=
  lowerStr (i.article_title ++ " " ++ i.article_description)

/-- The combined lowered text of an article:
`f"{article.get('title', '') or ''} {article.get('description', '') or ''}".lower()`. -/
def Article.textLower (a : Article) : String :=
  lowerStr (a.title ++ " " ++ a.description)

/-- The four keyword sets the activity loop accumulates. -/
structure KeywordSets where
  liked : Finset String
  saved : Finset String
  viewed : Finset String
  disliked : Finset String
deriving DecidableEq

/-- The initial (empty) keyword sets. -/
def emptySets : KeywordSets := ⟨∅, ∅, ∅, ∅⟩

/-- One iteration of the activity loop (lines 644-661): skip the row if its
combined text is blank or yields no keywords, otherwise add the keywords to
the set selected by `action_type`.  The row's `article_url` is never read. -/
def processActivity (st : KeywordSets) (act : Interaction) : KeywordSets :=
  let text := act.textContent
  if isBlank text then st
  else
    let kws := keywordSet text
    if kws = ∅ then st
    else if act.action_type = "like" then
      ⟨st.liked ∪ kws, st.saved, st.viewed, st.disliked⟩
    else if act.action_type = "save" then
      ⟨st.liked, st.saved ∪ kws, st.viewed, st.disliked⟩
    else if act.action_type = "dislike" then
      ⟨st.liked, st.saved, st.viewed, st.disliked ∪ kws⟩
    else if act.action_type = "view" then
      ⟨st.liked, st.saved, st.viewed ∪ kws, st.disliked⟩
    else st

/-- The keyword sets accumulated over the whole activity list. -/
def rawKeywordSets (acts : List Interaction) : KeywordSets :=
  acts.foldl processActivity emptySets

/-- The keyword sets after the negative-signal step (lines 663-666): the
disliked keywords are removed from the liked, saved and viewed sets. -/
def effectiveSets (acts : List Interaction) : KeywordSets :=
  let r := rawKeywordSets acts
  ⟨r.liked \ r.disliked, r.saved \ r.disliked, r.viewed \ r.disliked, r.disliked⟩

/-- The number of rows of the activity list whose `action_type` is `'like'`
(the quantity the spec's positive-interactions threshold would be checked
against; the source has no such check). -/
def likeCount (acts : List Interaction) : Nat :=
  (acts.filter (fun i => i.action_type == "like")).length

/-- The keyword-overlap part of an article's score (lines 681-683), in half
points: `5 * |kws ∩ liked| + 3 * |kws ∩ saved| + 1 * |kws ∩ viewed|` becomes
`10, 6, 2`. -/
def keywordScore (ks : KeywordSets) (kws : Finset String) : ℤ :=
  10 * ((kws ∩ ks.liked).card : ℤ) + 6 * ((kws ∩ ks.saved).card : ℤ)
    + 2 * ((kws ∩ ks.viewed).card : ℤ)

/-- Number of seconds in a day. -/
def secondsPerDay : Int := 86400

/-- The recency boost (lines 686-699), in half points: `+3` (here `6`) when
the article is less than one day old, `+1.5` (here `3`) when less than three
days old, otherwise nothing; a `publishedAt` the source's
`datetime.fromisoformat` would reject (modelled by `parseDate` returning
`none`) is silently ignored. -/
def recencyBoost (parseDate : String → Option Int) (now : Int) (pub : String) : ℤ :=
  match parseDate pub with
  | none => 0
  | some t =>
    if now - t < secondsPerDay then 6
    else if now - t < 3 * secondsPerDay then 3
    else 0

/-- The total score of one article (half points). -/
def articleScore (parseDate : String → Option Int) (now : Int) (ks : KeywordSets)
    (a : Article) : ℤ :=
  keywordScore ks (keywordSet a.textLower) + recencyBoost parseDate now a.publishedAt

/-- The scoring loop's admission test (lines 674-678): an article is skipped
when its combined lowered text is blank or yields no keywords. -/
def scoreable (a : Article) : Bool :=
  if isBlank a.textLower then false
  else if keywordSet a.textLower = ∅ then false
  else true

/-- The list `scored_articles` built by the scoring loop (lines 669-702):
one `(score, article)` pair per admissible article, in input order. -/
def scoredArticles (parseDate : String → Option Int) (now : Int) (ks : KeywordSets)
    (arts : List Article) : List (ℤ × Article) :=
  (arts.filter scoreable).map (fun a => (articleScore parseDate now ks a, a))

/-- The sort relation of `scored_articles.sort(reverse=True, key=lambda x: x[0])`:
descending on the score component. -/
def byScoreDesc (p q : ℤ × Article) : Prop := q.1 ≤ p.1

instance : DecidableRel byScoreDesc := fun p q => inferInstanceAs (Decidable (q.1 ≤ p.1))

instance : IsTotal (ℤ × Article) byScoreDesc := ⟨fun p q => le_total q.1 p.1⟩

instance : IsTrans (ℤ × Article) byScoreDesc :=
  ⟨fun _ _ _ h h2 => le_trans h2 h⟩

/-- Lexicographic (code-point) comparison of character lists, the order
Python uses to compare strings: the empty string sorts first, a proper
prefix sorts before its extensions. -/
def lexLeChars : List Char → List Char → Bool
  | [], _ => true
  | _ :: _, [] => false
  | c :: cs, d :: ds => if c < d then true else if d < c then false else lexLeChars cs ds

/-- Python's `s <= t` on strings (code-point lexicographic). -/
def strLe (s t : String) : Bool := lexLeChars s.toList t.toList

theorem lexLeChars_total : ∀ u v : List Char, lexLeChars u v = true ∨ lexLeChars v u = true
  | [], _ => Or.inl rfl
  | _ :: _, [] => Or.inr rfl
  | c :: cs, d :: ds => by
    rcases lt_trichotomy c d with h | h | h
    · left; simp [lexLeChars, h]
    · subst h
      rcases lexLeChars_total cs ds with ih | ih
      · left; simp [lexLeChars, lt_irrefl, ih]
      · right; simp [lexLeChars, lt_irrefl, ih]
    · right; simp [lexLeChars, h]

theorem lexLeChars_trans : ∀ u v w : List Char,
    lexLeChars u v = true → lexLeChars v w = true → lexLeChars u w = true
  | [], _, _, _, _ => rfl
  | _ :: _, [], _, h1, _ => by simp [lexLeChars] at h1
  | _ :: _, _ :: _, [], _, h2 => by simp [lexLeChars] at h2
  | c :: cs, d :: ds, e :: es, h1, h2 => by
    simp only [lexLeChars] at h1 h2 ⊢
    by_cases hcd : c < d
    · by_cases hde : d < e
      · simp [lt_trans hcd hde]
      · simp only [if_pos hcd] at h1
        rw [if_neg hde] at h2
        by_cases hed : e < d
        · simp [hed] at h2
        · have : d = e := le_antisymm (not_lt.mp hed) (not_lt.mp hde)
          subst this
          simp [hcd]
    · rw [if_neg hcd] at h1
      by_cases hdc : d < c
      · simp [hdc] at h1
      · have hcd2 : c = d := le_antisymm (not_lt.mp hdc) (not_lt.mp hcd)
        subst hcd2
        rw [if_neg hcd] at h1
        by_cases hce : c < e
        · simp [hce]
        · rw [if_neg hce] at h2
          by_cases hec : e < c
          · simp [hec] at h2
          · rw [if_neg hec] at h2
            simp only [if_neg hce, if_neg hec]
            exact lexLeChars_trans cs ds es h1 h2

/-- The sort relation of `.sort(key=lambda x: x.get('publishedAt', ''), reverse=True)`:
descending code-point lexicographic order on the `publishedAt` string.
(Python compares strings by code point; `String`'s own order in this Lean
version is not kernel-computable, so the comparison is embedded directly.) -/
def byDateDesc (x y : Article) : Prop := strLe y.publishedAt x.publishedAt = true

instance : DecidableRel byDateDesc :=
  fun x y => inferInstanceAs (Decidable (strLe y.publishedAt x.publishedAt = true))

instance : IsTotal Article byDateDesc :=
  ⟨fun x y => lexLeChars_total y.publishedAt.toList x.publishedAt.toList⟩

instance : IsTrans Article byDateDesc :=
  ⟨fun _ _ _ h h2 => lexLeChars_trans _ _ _ h2 h⟩

/-- `scored_articles` after the descending stable sort by score (line 706). -/
def sortedScored (parseDate : String → Option Int) (now : Int) (ks : KeywordSets)
    (arts : List Article) : List (ℤ × Article) :=
  (scoredArticles parseDate now ks arts).insertionSort byScoreDesc

/-- The list `recommended_articles` before backfill (line 710): the articles
with strictly positive score, in descending score order. -/
def recommendedOf (parseDate : String → Option Int) (now : Int) (ks : KeywordSets)
    (arts : List Article) : List Article :=
  ((sortedScored parseDate now ks arts).filter (fun p => decide (0 < p.1))).map Prod.snd

/-- The list `remaining_articles` before its date sort (line 719): the scored
articles whose url is not among the recommended urls.  Note that the source
draws these from `scored_articles` only, so articles skipped by the scoring
loop never reappear here. -/
def remainingOf (parseDate : String → Option Int) (now : Int) (ks : KeywordSets)
    (arts : List Article) : List Article :=
  ((sortedScored parseDate now ks arts).map Prod.snd).filter
    (fun a => decide (a.url ∉ (recommendedOf parseDate now ks arts).map Article.url))

/-- The full recommendation list before the final truncation (lines 710-723):
the positively scored articles, extended, when they number fewer than
`min_recommendations`, with the most recent remaining scored articles. -/
def rankFull (parseDate : String → Option Int) (now : Int) (ks : KeywordSets)
    (arts : List Article) (minRecs : Nat) : List Article :=
  let recs := recommendedOf parseDate now ks arts
  if recs.length < minRecs then
    recs ++ ((remainingOf parseDate now ks arts).insertionSort byDateDesc).take
      (minRecs - recs.length)
  else recs

/-- The personalized branch's return value (line 726): the ranked list
truncated to `DEFAULT_PAGE_SIZE`. -/
def rankArticles (parseDate : String → Option Int) (now : Int) (ks : KeywordSets)
    (arts : List Article) (minRecs : Nat) : List Article :=
  (rankFull parseDate now ks arts minRecs).take DEFAULT_PAGE_SIZE

/-- The pure core of `get_personalized_recommendations` (lines 620-726).
`user_id` is the Python argument, with `""` standing for any falsy value;
`user_activity` is the list `get_user_activity(user_id, limit=activity_limit)`
returns; `parseDate` and `now` model the datetime library as described in the
file header. -/
def get_personalized_recommendations (parseDate : String → Option Int) (now : Int)
    (user_id : String) (all_articles : List Article) (user_activity : List Interaction)
    (min_recommendations : Nat) : List Article :=
  if user_id = "" ∨ all_articles = [] then all_articles
  else if user_activity = [] then
    (all_articles.insertionSort byDateDesc).take DEFAULT_PAGE_SIZE
  else
    rankArticles parseDate now (effectiveSets user_activity) all_articles min_recommendations

/-- Modelled from the spec (section 4.5), for comparison with the source's
`recencyBoost`: the boost the spec prescribes for an article that is
`daysOld` days old, namely `max(0, 1 - days_old/14) * 0.1`. -/
def specRecencyBoost (daysOld : ℚ) : ℚ := max 0 (1 - daysOld / 14) * (1 / 10)

/-! ## Generic list lemmas

The sublist `[a, b] <+ l` is used throughout as the statement "`a` occurs
before `b` in `l`". -/

open List

theorem pair_sublist_decomp {α : Type} {a b : α} {l : List α} (h : [a, b] <+ l) :
    ∃ u v, l = u ++ a :: v ∧ b ∈ v := by
  induction l with
  | nil => simp at h
  | cons x t ih =>
    cases h with
    | cons _ h2 =>
      obtain ⟨u, v, rfl, hb⟩ := ih h2
      exact ⟨x :: u, v, rfl, hb⟩
    | cons₂ _ h2 =>
      exact ⟨[], t, rfl, List.singleton_sublist.mp h2⟩

theorem pair_sublist_take {α : Type} {a b : α} {l : List α} {n : Nat} (h : [a, b] <+ l)
    (hnd : l.Nodup) (hb : b ∈ l.take n) : [a, b] <+ l.take n := by
  obtain ⟨u, v, rfl, hbv⟩ := pair_sublist_decomp h
  obtain ⟨v1, v2, rfl⟩ := List.append_of_mem hbv
  have hl : u ++ a :: (v1 ++ b :: v2) = (u ++ a :: v1) ++ b :: v2 := by simp
  rw [hl] at hnd hb ⊢
  have hbU : b ∉ u ++ a :: v1 := by
    intro hmem
    have hdisj := List.disjoint_of_nodup_append hnd
    exact hdisj hmem (List.mem_cons_self b v2)
  have hlen : (u ++ a :: v1).length < n := by
    by_contra hle
    push_neg at hle
    rw [List.take_append_eq_append_take, Nat.sub_eq_zero_of_le hle] at hb
    simp only [List.take_zero, List.append_nil] at hb
    exact hbU ((List.take_sublist n (u ++ a :: v1)).subset hb)
  rw [List.take_append_eq_append_take, List.take_of_length_le (le_of_lt hlen)]
  obtain ⟨m, hm⟩ : ∃ m, n - (u ++ a :: v1).length = m + 1 :=
    ⟨n - (u ++ a :: v1).length - 1, by omega⟩
  rw [hm, List.take_succ_cons]
  have ha : [a] <+ u ++ a :: v1 :=
    List.singleton_sublist.mpr (by simp)
  have hb2 : [b] <+ b :: v2.take m := List.cons_sublist_cons.mpr (List.nil_sublist _)
  exact ha.append hb2

theorem pairwise_pair_sub {α : Type} {R : α → α → Prop} {a b : α} {l : List α}
    (hp : l.Pairwise R) (ha : a ∈ l) (hb : b ∈ l) (hne : a ≠ b) (hnr : ¬ R b a) :
    [a, b] <+ l := by
  induction l with
  | nil => simp at ha
  | cons x t ih =>
    rw [List.pairwise_cons] at hp
    rcases List.mem_cons.mp ha with rfl | hat
    · have hbt : b ∈ t := by
        rcases List.mem_cons.mp hb with rfl | h2
        · exact absurd rfl hne
        · exact h2
      exact List.cons_sublist_cons.mpr (List.singleton_sublist.mpr hbt)
    · rcases List.mem_cons.mp hb with rfl | hbt
      · exact absurd (hp.1 a hat) hnr
      · exact (ih hp.2 hat hbt).cons x

/-! ## Structural lemmas about the pipeline -/

theorem scored_map_snd (pd : String → Option Int) (now : Int) (ks : KeywordSets)
    (arts : List Article) :
    (scoredArticles pd now ks arts).map Prod.snd = arts.filter scoreable := by
  simp [scoredArticles, List.map_map, Function.comp_def]

theorem mem_scored_iff {pd : String → Option Int} {now : Int} {ks : KeywordSets}
    {arts : List Article} {p : ℤ × Article} :
    p ∈ scoredArticles pd now ks arts ↔
      p.2 ∈ arts ∧ scoreable p.2 = true ∧ p = (articleScore pd now ks p.2, p.2) := by
  simp only [scoredArticles, List.mem_map, List.mem_filter]
  constructor
  · rintro ⟨a, ⟨ha, hs⟩, rfl⟩
    exact ⟨ha, hs, rfl⟩
  · rintro ⟨ha, hs, hp⟩
    exact ⟨p.2, ⟨ha, hs⟩, hp.symm⟩

theorem sortedScored_perm (pd : String → Option Int) (now : Int) (ks : KeywordSets)
    (arts : List Article) :
    sortedScored pd now ks arts ~ scoredArticles pd now ks arts :=
  List.perm_insertionSort byScoreDesc _

theorem mem_sortedScored_iff {pd : String → Option Int} {now : Int} {ks : KeywordSets}
    {arts : List Article} {p : ℤ × Article} :
    p ∈ sortedScored pd now ks arts ↔
      p.2 ∈ arts ∧ scoreable p.2 = true ∧ p = (articleScore pd now ks p.2, p.2) := by
  rw [(sortedScored_perm pd now ks arts).mem_iff]
  exact mem_scored_iff

theorem sortedScored_pairwise (pd : String → Option Int) (now : Int) (ks : KeywordSets)
    (arts : List Article) :
    (sortedScored pd now ks arts).Pairwise byScoreDesc :=
  List.sorted_insertionSort byScoreDesc _

theorem mem_recommendedOf_iff {pd : String → Option Int} {now : Int} {ks : KeywordSets}
    {arts : List Article} {a : Article} :
    a ∈ recommendedOf pd now ks arts ↔
      a ∈ arts ∧ scoreable a = true ∧ 0 < articleScore pd now ks a := by
  simp only [recommendedOf, List.mem_map, List.mem_filter]
  constructor
  · rintro ⟨p, ⟨hp, hpos⟩, rfl⟩
    obtain ⟨ha, hs, hform⟩ := mem_sortedScored_iff.mp hp
    refine ⟨ha, hs, ?_⟩
    have : p.1 = articleScore pd now ks p.2 := by rw [hform]
    rw [← this]
    exact of_decide_eq_true hpos
  · rintro ⟨ha, hs, hpos⟩
    refine ⟨(articleScore pd now ks a, a), ⟨?_, ?_⟩, rfl⟩
    · exact mem_sortedScored_iff.mpr ⟨ha, hs, rfl⟩
    · exact decide_eq_true hpos

theorem mem_snd_sortedScored_iff {pd : String → Option Int} {now : Int} {ks : KeywordSets}
    {arts : List Article} {a : Article} :
    a ∈ (sortedScored pd now ks arts).map Prod.snd ↔ a ∈ arts ∧ scoreable a = true := by
  simp only [List.mem_map]
  constructor
  · rintro ⟨p, hp, rfl⟩
    obtain ⟨ha, hs, _⟩ := mem_sortedScored_iff.mp hp
    exact ⟨ha, hs⟩
  · rintro ⟨ha, hs⟩
    exact ⟨(articleScore pd now ks a, a), mem_sortedScored_iff.mpr ⟨ha, hs, rfl⟩, rfl⟩

theorem mem_remainingOf_iff {pd : String → Option Int} {now : Int} {ks : KeywordSets}
    {arts : List Article} {a : Article} :
    a ∈ remainingOf pd now ks arts ↔
      (a ∈ arts ∧ scoreable a = true) ∧
        a.url ∉ (recommendedOf pd now ks arts).map Article.url := by
  simp only [remainingOf, List.mem_filter, decide_eq_true_eq]
  rw [mem_snd_sortedScored_iff]

theorem mem_rankFull {pd : String → Option Int} {now : Int} {ks : KeywordSets}
    {arts : List Article} {m : Nat} {a : Article} (h : a ∈ rankFull pd now ks arts m) :
    a ∈ arts ∧ scoreable a = true := by
  rw [rankFull] at h
  split at h
  · rcases List.mem_append.mp h with h2 | h2
    · have := mem_recommendedOf_iff.mp h2
      exact ⟨this.1, this.2.1⟩
    · have h3 : a ∈ (remainingOf pd now ks arts).insertionSort byDateDesc :=
        (List.take_sublist _ _).subset h2
      have h4 : a ∈ remainingOf pd now ks arts :=
        (List.perm_insertionSort byDateDesc _).subset h3
      exact (mem_remainingOf_iff.mp h4).1
  · have := mem_recommendedOf_iff.mp h
    exact ⟨this.1, this.2.1⟩


/-! ## Uniqueness of urls through the pipeline -/

theorem nodup_filter_scoreable_urls {arts : List Article}
    (h : (arts.map Article.url).Nodup) :
    ((arts.filter scoreable).map Article.url).Nodup :=
  h.sublist ((List.filter_sublist arts).map Article.url)

theorem nodup_sortedScored_urls {pd : String → Option Int} {now : Int} {ks : KeywordSets}
    {arts : List Article} (h : (arts.map Article.url).Nodup) :
    ((sortedScored pd now ks arts).map (fun p => p.2.url)).Nodup := by
  have hperm := (sortedScored_perm pd now ks arts).map (fun p : ℤ × Article => p.2.url)
  have h2 : ((scoredArticles pd now ks arts).map (fun p => p.2.url)).Nodup := by
    have h3 : (scoredArticles pd now ks arts).map (fun p => p.2.url)
        = (arts.filter scoreable).map Article.url := by
      rw [← scored_map_snd pd now ks arts, List.map_map]
      rfl
    rw [h3]
    exact nodup_filter_scoreable_urls h
  exact hperm.nodup_iff.mpr h2

theorem nodup_recommendedOf_urls {pd : String → Option Int} {now : Int} {ks : KeywordSets}
    {arts : List Article} (h : (arts.map Article.url).Nodup) :
    ((recommendedOf pd now ks arts).map Article.url).Nodup := by
  have h2 : (recommendedOf pd now ks arts).map Article.url
      = ((sortedScored pd now ks arts).filter (fun p => decide (0 < p.1))).map
          (fun p => p.2.url) := by
    rw [recommendedOf, List.map_map]
    rfl
  rw [h2]
  exact (nodup_sortedScored_urls h).sublist
    ((List.filter_sublist (sortedScored pd now ks arts)).map (fun p : ℤ × Article => p.2.url))

theorem nodup_remainingOf_urls {pd : String → Option Int} {now : Int} {ks : KeywordSets}
    {arts : List Article} (h : (arts.map Article.url).Nodup) :
    ((remainingOf pd now ks arts).map Article.url).Nodup := by
  have h2 : ((sortedScored pd now ks arts).map Prod.snd).map Article.url
      = (sortedScored pd now ks arts).map (fun p => p.2.url) := by
    rw [List.map_map]
    rfl
  have h3 : (remainingOf pd now ks arts).map Article.url
      <+ ((sortedScored pd now ks arts).map Prod.snd).map Article.url :=
    (List.filter_sublist _).map Article.url
  rw [h2] at h3
  exact (nodup_sortedScored_urls h).sublist h3

theorem nodup_backfill_urls {pd : String → Option Int} {now : Int} {ks : KeywordSets}
    {arts : List Article} {n : Nat} (h : (arts.map Article.url).Nodup) :
    ((((remainingOf pd now ks arts).insertionSort byDateDesc).take n).map
      Article.url).Nodup := by
  have h2 : (((remainingOf pd now ks arts).insertionSort byDateDesc).map Article.url).Nodup :=
    ((List.perm_insertionSort byDateDesc _).map Article.url).nodup_iff.mpr
      (nodup_remainingOf_urls h)
  exact h2.sublist ((List.take_sublist _ _).map Article.url)

theorem backfill_url_not_recommended {pd : String → Option Int} {now : Int} {ks : KeywordSets}
    {arts : List Article} {n : Nat} {a : Article}
    (h : a ∈ ((remainingOf pd now ks arts).insertionSort byDateDesc).take n) :
    a.url ∉ (recommendedOf pd now ks arts).map Article.url := by
  have h2 : a ∈ remainingOf pd now ks arts :=
    (List.perm_insertionSort byDateDesc _).subset ((List.take_sublist _ _).subset h)
  exact (mem_remainingOf_iff.mp h2).2

theorem nodup_rankFull_urls {pd : String → Option Int} {now : Int} {ks : KeywordSets}
    {arts : List Article} {m : Nat} (h : (arts.map Article.url).Nodup) :
    ((rankFull pd now ks arts m).map Article.url).Nodup := by
  rw [rankFull]
  split
  · rw [List.map_append, List.nodup_append]
    refine ⟨nodup_recommendedOf_urls h, nodup_backfill_urls h, ?_⟩
    intro x hx hx2
    obtain ⟨b, hb, rfl⟩ := List.mem_map.mp hx2
    exact backfill_url_not_recommended hb hx
  · exact nodup_recommendedOf_urls h

theorem rankFull_nodup {pd : String → Option Int} {now : Int} {ks : KeywordSets}
    {arts : List Article} {m : Nat} (h : (arts.map Article.url).Nodup) :
    (rankFull pd now ks arts m).Nodup :=
  (nodup_rankFull_urls h).of_map

/-! ## Branch lemmas for the top-level function -/

theorem gpr_falsy {pd : String → Option Int} {now : Int} {uid : String}
    {arts : List Article} {acts : List Interaction} {m : Nat}
    (h : uid = "" ∨ arts = []) :
    get_personalized_recommendations pd now uid arts acts m = arts := by
  rw [get_personalized_recommendations, if_pos h]

theorem gpr_no_activity {pd : String → Option Int} {now : Int} {uid : String}
    {arts : List Article} {m : Nat} (h : uid ≠ "") (h2 : arts ≠ []) :
    get_personalized_recommendations pd now uid arts [] m
      = (arts.insertionSort byDateDesc).take DEFAULT_PAGE_SIZE := by
  rw [get_personalized_recommendations, if_neg (not_or.mpr ⟨h, h2⟩), if_pos rfl]

theorem gpr_active {pd : String → Option Int} {now : Int} {uid : String}
    {arts : List Article} {acts : List Interaction} {m : Nat}
    (h : uid ≠ "") (h2 : arts ≠ []) (h3 : acts ≠ []) :
    get_personalized_recommendations pd now uid arts acts m
      = rankArticles pd now (effectiveSets acts) arts m := by
  rw [get_personalized_recommendations, if_neg (not_or.mpr ⟨h, h2⟩), if_neg h3]


/-! ## Concrete fixtures used by witnesses and counterexamples -/

/-- A date parser that rejects every string (models `fromisoformat` raising on
every `publishedAt` in play). -/
def pdNone : String → Option Int := fun _ => none

/-- A date parser that maps every string to epoch second 0. -/
def pdZero : String → Option Int := fun _ => some 0

/-- A date parser giving `"T"` the current time 0 and `"O"` a time 20 days
earlier. -/
def pdT : String → Option Int := fun s =>
  if s = "T" then some 0 else if s = "O" then some (-1728000) else none

/-- A rocket-themed article with an old `publishedAt`. -/
def aR : Article := ⟨"Rocket launch soon", "", "r", "2000"⟩

/-- A bakery-themed article with a recent `publishedAt`. -/
def aB : Article := ⟨"bakery opens shop", "", "b", "2024"⟩

/-- A single `like` interaction about rockets. -/
def likeRocket : Interaction := ⟨"u1", "rocket launch news", "", "like"⟩

/-- A `dislike` interaction mentioning rockets. -/
def dislikeRocket : Interaction := ⟨"u2", "rocket crash report", "", "dislike"⟩

/-- A later `view` interaction on the same url and text as `dislikeRocket`. -/
def viewRocket : Interaction := ⟨"u2", "rocket crash report", "", "view"⟩

/-- `n` pairwise-distinct dummy articles (urls of distinct lengths). -/
def artsN (n : Nat) : List Article :=
  (List.range n).map (fun k => ⟨"news time", "", String.mk (List.replicate (k + 1) 'u'), ""⟩)

/-! ## Claims -/

/-- C1 (counterexample): as stated the claim is false.  With a falsy
`user_id` the source returns the candidate list unchanged, so 16 candidates
come back as 16 articles, exceeding `DEFAULT_PAGE_SIZE = 15`; and with a
truthy user a duplicated input article is returned twice, so the output can
repeat a url. -/
theorem C1_counterexample :
    (get_personalized_recommendations pdNone 0 "" (artsN 16) [] 5).length = 16 ∧
    ¬ (get_personalized_recommendations pdNone 0 "" (artsN 16) [] 5).length ≤
        DEFAULT_PAGE_SIZE ∧
    ¬ ((get_personalized_recommendations pdNone 0 "u" [aR, aR] [likeRocket] 5).map
        Article.url).Nodup := by
  refine ⟨by decide, by decide, by decide⟩

/-- C1 (amended): for a truthy user id and a candidate list without repeated
urls (the deduplication the spec's fetch collaborator guarantees), the output
has length at most `DEFAULT_PAGE_SIZE = 15` and contains no two articles with
the same url; with a falsy user id the source instead returns the input list
unchanged. -/
theorem C1_theorem (pd : String → Option Int) (now : Int) (uid : String)
    (arts : List Article) (acts : List Interaction) (m : Nat)
    (h : uid ≠ "") (hnd : (arts.map Article.url).Nodup) :
    (get_personalized_recommendations pd now uid arts acts m).length ≤ DEFAULT_PAGE_SIZE ∧
    ((get_personalized_recommendations pd now uid arts acts m).map Article.url).Nodup := by
  by_cases harts : arts = []
  · subst harts
    rw [gpr_falsy (Or.inr rfl)]
    exact ⟨by simp [DEFAULT_PAGE_SIZE], by simp⟩
  · by_cases hacts : acts = []
    · subst hacts
      rw [gpr_no_activity h harts]
      refine ⟨List.length_take_le _ _, ?_⟩
      have h2 : ((arts.insertionSort byDateDesc).map Article.url).Nodup :=
        ((List.perm_insertionSort byDateDesc arts).map Article.url).nodup_iff.mpr hnd
      exact h2.sublist ((List.take_sublist _ _).map Article.url)
    · rw [gpr_active h harts hacts]
      refine ⟨List.length_take_le _ _, ?_⟩
      exact (nodup_rankFull_urls hnd).sublist ((List.take_sublist _ _).map Article.url)

/-- C1 (witness): the amended claim instantiated on a concrete input. -/
theorem C1_witness :
    (get_personalized_recommendations pdNone 0 "u" [aB, aR] [likeRocket] 5).length ≤
        DEFAULT_PAGE_SIZE ∧
      ((get_personalized_recommendations pdNone 0 "u" [aB, aR] [likeRocket] 5).map
        Article.url).Nodup :=
  C1_theorem pdNone 0 "u" [aB, aR] [likeRocket] 5 (by decide) (by decide)

/-- C2 (counterexample): with a falsy `user_id` the source returns the
candidate list unchanged (line 626), not sorted by `publishedAt` descending
and truncated as the claim states: on `[aR, aB]` (old date first) the output
keeps the old article first, while the recency sort would put `aB` first. -/
theorem C2_counterexample :
    get_personalized_recommendations pdNone 0 "" [aR, aB] [] 5 = [aR, aB] ∧
    (([aR, aB].insertionSort byDateDesc).take DEFAULT_PAGE_SIZE : List Article)
      = [aB, aR] ∧
    ([aR, aB] : List Article) ≠ [aB, aR] := by
  refine ⟨by decide, by decide, by decide⟩

/-- C2 (amended): with a falsy user id or an empty candidate pool the source
returns the candidate list unchanged; the recency sort (by `publishedAt`
descending) plus `DEFAULT_PAGE_SIZE` truncation instead happens exactly when
the user exists and the retrieved activity list is empty. -/
theorem C2_theorem (pd : String → Option Int) (now : Int) (uid : String)
    (arts : List Article) (acts : List Interaction) (m : Nat) :
    ((uid = "" ∨ arts = []) →
      get_personalized_recommendations pd now uid arts acts m = arts) ∧
    (uid ≠ "" → arts ≠ [] →
      ∃ l, arts ~ l ∧ l.Pairwise byDateDesc ∧
        get_personalized_recommendations pd now uid arts [] m
          = l.take DEFAULT_PAGE_SIZE) := by
  constructor
  · exact gpr_falsy
  · intro h h2
    exact ⟨arts.insertionSort byDateDesc, (List.perm_insertionSort _ _).symm,
      List.sorted_insertionSort _ _, gpr_no_activity h h2⟩

/-- C2 (witness): the amended claim instantiated on a concrete input. -/
theorem C2_witness :
    get_personalized_recommendations pdNone 0 "" [aR, aB] [] 5 = [aR, aB] ∧
    (∃ l, ([aR, aB] : List Article) ~ l ∧ l.Pairwise byDateDesc ∧
      get_personalized_recommendations pdNone 0 "u" [aR, aB] [] 5
        = l.take DEFAULT_PAGE_SIZE) :=
  ⟨(C2_theorem pdNone 0 "" [aR, aB] [] 5).1 (Or.inl rfl),
    (C2_theorem pdNone 0 "u" [aR, aB] [] 5).2 (by decide) (by decide)⟩

/-- C3 (counterexample): the source has no positive-interactions threshold.
A single `like` (like-count 1 < 3) already personalizes: the rocket article
is ranked first although the recency fallback would put the bakery article
first. -/
theorem C3_counterexample :
    likeCount [likeRocket] = 1 ∧ 1 < 3 ∧
    get_personalized_recommendations pdNone 0 "u" [aB, aR] [likeRocket] 5 = [aR, aB] ∧
    (([aB, aR].insertionSort byDateDesc).take DEFAULT_PAGE_SIZE : List Article)
      = [aB, aR] ∧
    ([aR, aB] : List Article) ≠ [aB, aR] := by
  refine ⟨by decide, by decide, by decide, by decide, by decide⟩

/-- C3 (amended): the recency-sorted truncated fallback is produced when the
retrieved activity list is empty; any nonempty activity list — in particular
one whose like-count is below 3 — is fed to the keyword personalization
instead (the source never counts likes). -/
theorem C3_theorem (pd : String → Option Int) (now : Int) (uid : String)
    (arts : List Article) (acts : List Interaction) (m : Nat)
    (h : uid ≠ "") (h2 : arts ≠ []) :
    (acts = [] → ∃ l, arts ~ l ∧ l.Pairwise byDateDesc ∧
      get_personalized_recommendations pd now uid arts acts m
        = l.take DEFAULT_PAGE_SIZE) ∧
    (acts ≠ [] → likeCount acts < 3 →
      get_personalized_recommendations pd now uid arts acts m
        = rankArticles pd now (effectiveSets acts) arts m) := by
  constructor
  · rintro rfl
    exact ⟨arts.insertionSort byDateDesc, (List.perm_insertionSort _ _).symm,
      List.sorted_insertionSort _ _, gpr_no_activity h h2⟩
  · intro h3 _
    exact gpr_active h h2 h3

/-- C3 (witness): the amended claim instantiated on a concrete input with a
single like. -/
theorem C3_witness :
    get_personalized_recommendations pdNone 0 "u" [aB, aR] [likeRocket] 5
      = rankArticles pdNone 0 (effectiveSets [likeRocket]) [aB, aR] 5 :=
  (C3_theorem pdNone 0 "u" [aB, aR] [likeRocket] 5 (by decide) (by decide)).2
    (by decide) (by decide)

/-- C10: every article the recommender returns is an element of the input
candidate list — the function only reorders, filters and truncates. -/
theorem C10_theorem (pd : String → Option Int) (now : Int) (uid : String)
    (arts : List Article) (acts : List Interaction) (m : Nat) (a : Article)
    (h : a ∈ get_personalized_recommendations pd now uid arts acts m) : a ∈ arts := by
  by_cases h1 : uid = "" ∨ arts = []
  · rwa [gpr_falsy h1] at h
  · push_neg at h1
    by_cases h2 : acts = []
    · subst h2
      rw [gpr_no_activity h1.1 h1.2] at h
      exact (List.perm_insertionSort byDateDesc arts).subset
        ((List.take_sublist _ _).subset h)
    · rw [gpr_active h1.1 h1.2 h2] at h
      have h3 : a ∈ rankFull pd now (effectiveSets acts) arts m :=
        (List.take_sublist _ _).subset h
      exact (mem_rankFull h3).1

/-- C10 (witness): the containment instantiated on a concrete input. -/
theorem C10_witness : aR ∈ ([aB, aR] : List Article) :=
  C10_theorem pdNone 0 "u" [aB, aR] [likeRocket] 5 aR (by decide)


/-! ## Dislike dominance (C5) -/

theorem processActivity_disliked_mono (st : KeywordSets) (act : Interaction) :
    st.disliked ⊆ (processActivity st act).disliked := by
  have h : (processActivity st act).disliked = st.disliked ∨
      (processActivity st act).disliked = st.disliked ∪ keywordSet act.textContent := by
    unfold processActivity
    by_cases hb : isBlank act.textContent = true
    · simp [hb]
    · rw [if_neg hb]
      by_cases hk : keywordSet act.textContent = ∅
      · simp [hk]
      · rw [if_neg hk]
        split_ifs <;> simp
  rcases h with h | h
  · rw [h]
  · rw [h]
    exact Finset.subset_union_left

theorem foldl_disliked_mono (l : List Interaction) (st : KeywordSets) :
    st.disliked ⊆ (l.foldl processActivity st).disliked := by
  induction l generalizing st with
  | nil => exact fun x hx => hx
  | cons x t ih =>
    exact subset_trans (processActivity_disliked_mono st x) (ih (processActivity st x))

theorem foldl_disliked_of_mem {l : List Interaction} {i : Interaction} (st : KeywordSets)
    (hi : i ∈ l) (hd : i.action_type = "dislike")
    (hb : isBlank i.textContent = false) :
    keywordSet i.textContent ⊆ (l.foldl processActivity st).disliked := by
  induction l generalizing st with
  | nil => cases hi
  | cons x t ih =>
    rcases List.mem_cons.mp hi with rfl | hit
    · simp only [List.foldl_cons]
      refine subset_trans ?_ (foldl_disliked_mono t _)
      unfold processActivity
      rw [if_neg (by simp [hb])]
      by_cases hk : keywordSet i.textContent = ∅
      · rw [hk]
        intro x hx
        simp at hx
      · rw [if_neg hk, if_neg (by rw [hd]; decide), if_neg (by rw [hd]; decide), if_pos hd]
        exact Finset.subset_union_right
    · simp only [List.foldl_cons]
      exact ih _ hit

/-- C5: a dislike dominates.  If some interaction in the retrieved activity
is a `dislike` whose text yields the keyword `t`, then `t` is removed from
the liked, saved and viewed keyword sets (lines 663-666), so `t` contributes
no positive score to any candidate: the keyword score of any candidate
keyword set `K` is the same as if `t` were not in `K` at all.  Because the
four sets are accumulated order-independently, this holds in particular when
a later `view` on the same url repeats the disliked text: the view cannot
resurrect `t`. -/
theorem C5_theorem (acts : List Interaction) (i : Interaction) (t : String)
    (K : Finset String) (hi : i ∈ acts) (hd : i.action_type = "dislike")
    (hb : isBlank i.textContent = false) (ht : t ∈ keywordSet i.textContent) :
    t ∉ (effectiveSets acts).liked ∧ t ∉ (effectiveSets acts).saved ∧
    t ∉ (effectiveSets acts).viewed ∧
    keywordScore (effectiveSets acts) K = keywordScore (effectiveSets acts) (K.erase t) := by
  have htd : t ∈ (rawKeywordSets acts).disliked :=
    foldl_disliked_of_mem emptySets hi hd hb ht
  have h1 : t ∉ (effectiveSets acts).liked := by
    simp [effectiveSets, Finset.mem_sdiff, htd]
  have h2 : t ∉ (effectiveSets acts).saved := by
    simp [effectiveSets, Finset.mem_sdiff, htd]
  have h3 : t ∉ (effectiveSets acts).viewed := by
    simp [effectiveSets, Finset.mem_sdiff, htd]
  refine ⟨h1, h2, h3, ?_⟩
  have key : ∀ S : Finset String, t ∉ S → K.erase t ∩ S = K ∩ S := by
    intro S hS
    ext x
    simp only [Finset.mem_inter, Finset.mem_erase]
    constructor
    · rintro ⟨⟨_, hxK⟩, hxS⟩
      exact ⟨hxK, hxS⟩
    · rintro ⟨hxK, hxS⟩
      exact ⟨⟨fun he => hS (he ▸ hxS), hxK⟩, hxS⟩
  rw [keywordScore, keywordScore, key _ h1, key _ h2, key _ h3]

/-- C5 (witness): the dominance instantiated on an activity holding an older
dislike and a later view (the list is newest-first) of the same url and text:
the keyword `rocket` scores nothing. -/
theorem C5_witness :
    "rocket" ∉ (effectiveSets [viewRocket, dislikeRocket]).liked ∧
    "rocket" ∉ (effectiveSets [viewRocket, dislikeRocket]).saved ∧
    "rocket" ∉ (effectiveSets [viewRocket, dislikeRocket]).viewed ∧
    keywordScore (effectiveSets [viewRocket, dislikeRocket]) {"rocket", "news"}
      = keywordScore (effectiveSets [viewRocket, dislikeRocket])
          (({"rocket", "news"} : Finset String).erase "rocket") :=
  C5_theorem [viewRocket, dislikeRocket] dislikeRocket "rocket" {"rocket", "news"}
    (by decide) (by decide) (by decide) (by decide)

/-! ## Recency boost (C6) -/

/-- C6 (counterexample): the source boost is not the spec formula
`max(0, 1 - days_old/14) * 0.1`.  For an article published right now
(`days_old = 0`) the source adds 3 points (6 half points), the spec formula
prescribes 0.1. -/
theorem C6_counterexample :
    recencyBoost pdZero 0 "2024" = 6 ∧
    ((6 : ℚ) / 2 = 3) ∧
    specRecencyBoost 0 = 1 / 10 ∧
    (3 : ℚ) ≠ 1 / 10 := by
  refine ⟨by decide, by norm_num, ?_, by norm_num⟩
  rw [specRecencyBoost]
  norm_num

/-- C6 (amended): the boost the source adds is the step function
3 points (6 half points) when the parsed age is under one day, 1.5 points
(3 half points) when under three days, and exactly 0 otherwise — in
particular 0 for anything three or more days old (hence for anything older
than 14 days) — and exactly 0, never an error, for an unparsable date; the
boost is always one of {0, 3, 6} half points and never negative. -/
theorem C6_theorem (pd : String → Option Int) (now : Int) (pub : String) :
    (pd pub = none → recencyBoost pd now pub = 0) ∧
    (∀ t, pd pub = some t → now - t < secondsPerDay → recencyBoost pd now pub = 6) ∧
    (∀ t, pd pub = some t → secondsPerDay ≤ now - t → now - t < 3 * secondsPerDay →
      recencyBoost pd now pub = 3) ∧
    (∀ t, pd pub = some t → 3 * secondsPerDay ≤ now - t → recencyBoost pd now pub = 0) ∧
    recencyBoost pd now pub ∈ ({0, 3, 6} : Set ℤ) ∧
    0 ≤ recencyBoost pd now pub := by
  refine ⟨?_, ?_, ?_, ?_, ?_, ?_⟩
  · intro h
    simp [recencyBoost, h]
  · intro t ht h1
    simp [recencyBoost, ht, h1]
  · intro t ht h1 h2
    simp only [recencyBoost, ht]
    rw [if_neg (not_lt.mpr h1), if_pos h2]
  · intro t ht h1
    simp only [recencyBoost, ht]
    rw [if_neg (not_lt.mpr (le_trans (by rw [secondsPerDay]; omega) h1)),
      if_neg (not_lt.mpr h1)]
  · rcases hp : pd pub with _ | t
    · simp [recencyBoost, hp]
    · simp only [recencyBoost, hp]
      split_ifs <;> simp
  · rcases hp : pd pub with _ | t
    · simp [recencyBoost, hp]
    · simp only [recencyBoost, hp]
      split_ifs <;> simp

/-- C6 (witness): the amended step function instantiated: a just-published
article gets 6 half points, a 20-day-old one gets 0, an unparsable date
gets 0. -/
theorem C6_witness :
    recencyBoost pdT 0 "T" = 6 ∧ recencyBoost pdT 0 "O" = 0 ∧
    recencyBoost pdT 0 "zzz" = 0 :=
  ⟨(C6_theorem pdT 0 "T").2.1 0 (by decide) (by decide),
    (C6_theorem pdT 0 "O").2.2.2.1 (-1728000) (by decide) (by decide),
    (C6_theorem pdT 0 "zzz").1 (by decide)⟩


/-! ## Keyword scores are never negative -/

theorem keywordScore_nonneg (ks : KeywordSets) (K : Finset String) :
    0 ≤ keywordScore ks K := by
  rw [keywordScore]
  positivity

/-! ## Stability and rank-order lemmas shared by C7 and C9 -/

theorem pair_sublist_recommendedOf {pd : String → Option Int} {now : Int} {ks : KeywordSets}
    {arts : List Article} {a b : Article}
    (h : [(articleScore pd now ks a, a), (articleScore pd now ks b, b)]
      <+ sortedScored pd now ks arts)
    (hpa : 0 < articleScore pd now ks a) (hpb : 0 < articleScore pd now ks b) :
    [a, b] <+ recommendedOf pd now ks arts := by
  have h2 := (h.filter (fun p => decide (0 < p.1))).map Prod.snd
  simpa [recommendedOf, hpa, hpb] using h2

theorem pair_sublist_rankFull {pd : String → Option Int} {now : Int} {ks : KeywordSets}
    {arts : List Article} {m : Nat} {a b : Article}
    (h : [a, b] <+ recommendedOf pd now ks arts) :
    [a, b] <+ rankFull pd now ks arts m := by
  rw [rankFull]
  split
  · exact h.trans (List.sublist_append_left _ _)
  · exact h

/-- C9 (counterexample): the claim fails for score ties at zero.  Both
candidates below score 0 (no likes match); they tie, `x1` comes first in the
input, yet the backfill orders by `publishedAt` descending and returns `x2`
first. -/
theorem C9_counterexample :
    articleScore pdNone 0 (effectiveSets [likeRocket]) ⟨"alpha words here", "", "x1", "2000"⟩
      = articleScore pdNone 0 (effectiveSets [likeRocket]) ⟨"beta stuff there", "", "x2", "2024"⟩ ∧
    get_personalized_recommendations pdNone 0 "u"
        [⟨"alpha words here", "", "x1", "2000"⟩, ⟨"beta stuff there", "", "x2", "2024"⟩]
        [likeRocket] 5
      = [⟨"beta stuff there", "", "x2", "2024"⟩, ⟨"alpha words here", "", "x1", "2000"⟩] ∧
    ([⟨"beta stuff there", "", "x2", "2024"⟩, ⟨"alpha words here", "", "x1", "2000"⟩] :
        List Article)
      ≠ [⟨"alpha words here", "", "x1", "2000"⟩, ⟨"beta stuff there", "", "x2", "2024"⟩] := by
  refine ⟨by decide, by decide, by decide⟩

/-- C9 (amended): the score sort is stable on ties — but only candidates with
strictly positive final score keep input order in the output; candidates that
fall through to the backfill are reordered by date.  For two candidates with
equal, strictly positive final scores, the one earlier in the input appears
earlier in the output. -/
theorem C9_theorem (pd : String → Option Int) (now : Int) (uid : String)
    (arts : List Article) (acts : List Interaction) (m : Nat) (a b : Article)
    (huid : uid ≠ "") (hacts : acts ≠ [])
    (hnd : (arts.map Article.url).Nodup)
    (hab : [a, b] <+ arts)
    (hsa : scoreable a = true) (hsb : scoreable b = true)
    (heq : articleScore pd now (effectiveSets acts) a
      = articleScore pd now (effectiveSets acts) b)
    (hpos : 0 < articleScore pd now (effectiveSets acts) a)
    (hbmem : b ∈ get_personalized_recommendations pd now uid arts acts m) :
    [a, b] <+ get_personalized_recommendations pd now uid arts acts m := by
  have harts : arts ≠ [] := by
    rintro rfl
    simp at hab
  rw [gpr_active huid harts hacts, rankArticles] at hbmem ⊢
  have h2 : [a, b] <+ arts.filter scoreable := by
    have h1 : [a, b].filter scoreable = [a, b] := by simp [hsa, hsb]
    exact h1 ▸ hab.filter scoreable
  have h3 : [(articleScore pd now (effectiveSets acts) a, a),
      (articleScore pd now (effectiveSets acts) b, b)]
      <+ scoredArticles pd now (effectiveSets acts) arts := by
    have h4 := h2.map (fun x => (articleScore pd now (effectiveSets acts) x, x))
    simpa [scoredArticles] using h4
  have h5 : byScoreDesc (articleScore pd now (effectiveSets acts) a, a)
      (articleScore pd now (effectiveSets acts) b, b) := le_of_eq heq.symm
  have h6 := List.pair_sublist_insertionSort h5 h3
  have h7 : [a, b] <+ recommendedOf pd now (effectiveSets acts) arts :=
    pair_sublist_recommendedOf h6 hpos (heq ▸ hpos)
  exact pair_sublist_take (pair_sublist_rankFull h7) (rankFull_nodup hnd) hbmem

/-- C9 (witness): two equally liked candidates (equal positive scores), the
earlier-input one older; the output keeps input order. -/
theorem C9_witness :
    [(⟨"rocket alpha", "", "x3", "2000"⟩ : Article), ⟨"rocket beta", "", "x4", "2024"⟩]
      <+ get_personalized_recommendations pdNone 0 "u"
        [⟨"rocket alpha", "", "x3", "2000"⟩, ⟨"rocket beta", "", "x4", "2024"⟩]
        [likeRocket] 5 :=
  C9_theorem pdNone 0 "u"
    [⟨"rocket alpha", "", "x3", "2000"⟩, ⟨"rocket beta", "", "x4", "2024"⟩]
    [likeRocket] 5 ⟨"rocket alpha", "", "x3", "2000"⟩ ⟨"rocket beta", "", "x4", "2024"⟩
    (by decide) (by decide) (by decide) (by decide) (by decide) (by decide)
    (by decide) (by decide) (by decide)

/-- C7: with identical keyword (pre-boost) scores, an article published at
the current instant outranks one published 20 days earlier: it always ends up
in the positively-scored segment, and wherever the older article appears in
the output, the fresh one appears before it. -/
theorem C7_theorem (pd : String → Option Int) (now : Int) (uid : String)
    (arts : List Article) (acts : List Interaction) (m : Nat) (today old : Article)
    (huid : uid ≠ "") (hacts : acts ≠ [])
    (hnd : (arts.map Article.url).Nodup)
    (hta : today ∈ arts) (hoa : old ∈ arts) (hurl : today.url ≠ old.url)
    (hsa : scoreable today = true) (hsb : scoreable old = true)
    (hkeq : keywordScore (effectiveSets acts) (keywordSet today.textLower)
      = keywordScore (effectiveSets acts) (keywordSet old.textLower))
    (hpt : pd today.publishedAt = some now)
    (hpo : pd old.publishedAt = some (now - 20 * secondsPerDay))
    (hbmem : old ∈ get_personalized_recommendations pd now uid arts acts m) :
    [today, old] <+ get_personalized_recommendations pd now uid arts acts m := by
  have harts : arts ≠ [] := List.ne_nil_of_mem hta
  rw [gpr_active huid harts hacts, rankArticles] at hbmem ⊢
  have hboost_t : recencyBoost pd now today.publishedAt = 6 := by
    simp only [recencyBoost, hpt, sub_self]
    rw [if_pos (by rw [secondsPerDay]; omega)]
  have hboost_o : recencyBoost pd now old.publishedAt = 0 := by
    simp only [recencyBoost, hpo]
    have h20 : now - (now - 20 * secondsPerDay) = 20 * secondsPerDay := by ring
    rw [h20, if_neg (by rw [secondsPerDay]; omega), if_neg (by rw [secondsPerDay]; omega)]
  have hscore : articleScore pd now (effectiveSets acts) old
      < articleScore pd now (effectiveSets acts) today := by
    rw [articleScore, articleScore, hboost_t, hboost_o, hkeq]
    omega
  have hne : today ≠ old := fun he => hurl (he ▸ rfl)
  have hpos_t : 0 < articleScore pd now (effectiveSets acts) today := by
    rw [articleScore, hboost_t]
    have := keywordScore_nonneg (effectiveSets acts) (keywordSet today.textLower)
    omega
  have hfull : [today, old] <+ rankFull pd now (effectiveSets acts) arts m := by
    by_cases hop : 0 < articleScore pd now (effectiveSets acts) old
    · have hpa : (articleScore pd now (effectiveSets acts) today, today)
          ∈ sortedScored pd now (effectiveSets acts) arts :=
        mem_sortedScored_iff.mpr ⟨hta, hsa, rfl⟩
      have hpb : (articleScore pd now (effectiveSets acts) old, old)
          ∈ sortedScored pd now (effectiveSets acts) arts :=
        mem_sortedScored_iff.mpr ⟨hoa, hsb, rfl⟩
      have hpair := pairwise_pair_sub (sortedScored_pairwise pd now (effectiveSets acts) arts)
        hpa hpb (fun he => hne (congrArg Prod.snd he))
        (fun hle => absurd (le_of_le_of_eq hle rfl) (not_le.mpr hscore))
      exact pair_sublist_rankFull (pair_sublist_recommendedOf hpair hpos_t hop)
    · have hor : old ∉ recommendedOf pd now (effectiveSets acts) arts :=
        fun hmem => hop (mem_recommendedOf_iff.mp hmem).2.2
      have htr : today ∈ recommendedOf pd now (effectiveSets acts) arts :=
        mem_recommendedOf_iff.mpr ⟨hta, hsa, hpos_t⟩
      have hbfull : old ∈ rankFull pd now (effectiveSets acts) arts m :=
        (List.take_sublist _ _).subset hbmem
      rw [rankFull] at hbfull ⊢
      by_cases hlen : (recommendedOf pd now (effectiveSets acts) arts).length < m
      · rw [if_pos hlen] at hbfull ⊢
        rcases List.mem_append.mp hbfull with h2 | h2
        · exact absurd h2 hor
        · exact (List.singleton_sublist.mpr htr).append (List.singleton_sublist.mpr h2)
      · rw [if_neg hlen] at hbfull
        exact absurd hbfull hor
  exact pair_sublist_take hfull (rankFull_nodup hnd) hbmem

/-- C7 (witness): the fresh rocket article (input-later!) is ranked above the
20-day-old rocket article with the same keyword score. -/
theorem C7_witness :
    (⟨"rocket older", "", "o", "O"⟩ : Article) ∈
      get_personalized_recommendations pdT 0 "u"
        [⟨"rocket older", "", "o", "O"⟩, ⟨"rocket today", "", "t", "T"⟩]
        [likeRocket] 5 ∧
    [(⟨"rocket today", "", "t", "T"⟩ : Article), ⟨"rocket older", "", "o", "O"⟩]
      <+ get_personalized_recommendations pdT 0 "u"
        [⟨"rocket older", "", "o", "O"⟩, ⟨"rocket today", "", "t", "T"⟩]
        [likeRocket] 5 :=
  ⟨by decide,
    C7_theorem pdT 0 "u"
      [⟨"rocket older", "", "o", "O"⟩, ⟨"rocket today", "", "t", "T"⟩]
      [likeRocket] 5 ⟨"rocket today", "", "t", "T"⟩ ⟨"rocket older", "", "o", "O"⟩
      (by decide) (by decide) (by decide) (by decide) (by decide) (by decide)
      (by decide) (by decide) (by decide) (by decide) (by decide) (by decide)⟩


/-! ## Malformed-row handling (C8) -/

/-- A like interaction with no `article_url` but a usable text. -/
def likeNoUrl : Interaction := ⟨"", "rocket launch news", "", "like"⟩

/-- A like interaction with no text at all. -/
def likeNoText : Interaction := ⟨"u7", "", "", "like"⟩

/-- An article with empty title and description. -/
def aBlank : Article := ⟨"", "", "blank", "2020"⟩

/-- C8 (counterexample): an interaction row with a missing url but usable
text is not skipped.  The url-less like row steers the ranking (rocket
article first); if the row were skipped, the output would be the same as
with a genuinely skipped blank-text row (bakery article first, by the
backfill's recency order). -/
theorem C8_counterexample :
    likeNoUrl.article_url = "" ∧
    get_personalized_recommendations pdNone 0 "u" [aB, aR] [likeNoUrl] 5 = [aR, aB] ∧
    get_personalized_recommendations pdNone 0 "u" [aB, aR] [likeNoText] 5 = [aB, aR] ∧
    ([aR, aB] : List Article) ≠ [aB, aR] := by
  refine ⟨by decide, by decide, by decide, by decide⟩

/-- C8 (amended): (i) a candidate whose combined title+description text is
blank gets no score entry and never appears in the personalized output (the
source's backfill draws from scored articles only, so it is never reinserted
at all); (ii) an interaction row with blank combined text is skipped at the
row level: deleting it from the activity list leaves the accumulated keyword
sets unchanged; (iii) an interaction row's `article_url` is never read:
rewriting every row's url leaves the whole recommendation output unchanged,
so a MISSING url is processed normally rather than skipped; nothing in any
of these cases raises (the embedded functions are total). -/
theorem C8_theorem (pd : String → Option Int) (now : Int) (uid : String)
    (arts : List Article) (acts : List Interaction) (m : Nat) (a : Article)
    (i : Interaction) (pre post : List Interaction) (u : Interaction → String) :
    (uid ≠ "" → acts ≠ [] → isBlank a.textLower = true →
      a ∉ get_personalized_recommendations pd now uid arts acts m) ∧
    (isBlank i.textContent = true →
      rawKeywordSets (pre ++ i :: post) = rawKeywordSets (pre ++ post)) ∧
    (get_personalized_recommendations pd now uid arts
        (acts.map (fun j => ⟨u j, j.article_title, j.article_description, j.action_type⟩)) m
      = get_personalized_recommendations pd now uid arts acts m) := by
  refine ⟨?_, ?_, ?_⟩
  · intro huid hacts hblank hmem
    by_cases harts : arts = []
    · subst harts
      rw [gpr_falsy (Or.inr rfl)] at hmem
      simp at hmem
    · rw [gpr_active huid harts hacts, rankArticles] at hmem
      have h2 := (mem_rankFull ((List.take_sublist _ _).subset hmem)).2
      rw [scoreable, if_pos hblank] at h2
      exact Bool.false_ne_true h2
  · intro hb
    have hskip : ∀ st, processActivity st i = st := by
      intro st
      rw [processActivity]
      simp [hb]
    rw [rawKeywordSets, rawKeywordSets, List.foldl_append, List.foldl_append,
      List.foldl_cons, hskip]
  · have hrow : ∀ (st : KeywordSets) (j : Interaction),
        processActivity st ⟨u j, j.article_title, j.article_description, j.action_type⟩
          = processActivity st j := fun _ _ => rfl
    have hsets : effectiveSets (acts.map
        (fun j => ⟨u j, j.article_title, j.article_description, j.action_type⟩))
        = effectiveSets acts := by
      rw [effectiveSets, effectiveSets, rawKeywordSets, rawKeywordSets, List.foldl_map]
      simp only [hrow]
    by_cases h1 : uid = "" ∨ arts = []
    · rw [gpr_falsy h1, gpr_falsy h1]
    · push_neg at h1
      by_cases h2 : acts = []
      · subst h2
        rfl
      · have h2m : acts.map
            (fun j => (⟨u j, j.article_title, j.article_description, j.action_type⟩ :
              Interaction)) ≠ [] := by
          simpa using h2
        rw [gpr_active h1.1 h1.2 h2, gpr_active h1.1 h1.2 h2m, hsets]

/-- C8 (witness): the amended claim instantiated: the blank-text article is
never returned, deleting a blank-text row changes nothing, and blanking every
url changes nothing. -/
theorem C8_witness :
    aBlank ∉ get_personalized_recommendations pdNone 0 "u" [aBlank, aR] [likeRocket] 5 ∧
    rawKeywordSets ([likeRocket] ++ likeNoText :: []) = rawKeywordSets ([likeRocket] ++ []) ∧
    get_personalized_recommendations pdNone 0 "u" [aB, aR]
        ([likeRocket].map (fun j => ⟨"", j.article_title, j.article_description,
          j.action_type⟩)) 5
      = get_personalized_recommendations pdNone 0 "u" [aB, aR] [likeRocket] 5 :=
  ⟨(C8_theorem pdNone 0 "u" [aBlank, aR] [likeRocket] 5 aBlank likeNoText [likeRocket] []
      (fun _ => "")).1 (by decide) (by decide) (by decide),
    (C8_theorem pdNone 0 "u" [aBlank, aR] [likeRocket] 5 aBlank likeNoText [likeRocket] []
      (fun _ => "")).2.1 (by decide),
    (C8_theorem pdNone 0 "u" [aB, aR] [likeRocket] 5 aBlank likeNoText [likeRocket] []
      (fun _ => "")).2.2⟩


/-! ## Counting lemmas for the backfill (C4) -/

theorem snd_sortedScored_length {pd : String → Option Int} {now : Int} {ks : KeywordSets}
    {arts : List Article} (hall : ∀ a ∈ arts, scoreable a = true) :
    ((sortedScored pd now ks arts).map Prod.snd).length = arts.length := by
  have h1 : (sortedScored pd now ks arts).map Prod.snd ~ arts.filter scoreable := by
    rw [← scored_map_snd pd now ks arts]
    exact (sortedScored_perm pd now ks arts).map Prod.snd
  rw [h1.length_eq, List.filter_eq_self.mpr hall]

theorem length_arts_le_remaining_add_recommended (pd : String → Option Int) (now : Int)
    (ks : KeywordSets) (arts : List Article)
    (hnd : (arts.map Article.url).Nodup) (hall : ∀ a ∈ arts, scoreable a = true) :
    arts.length ≤ (remainingOf pd now ks arts).length + (recommendedOf pd now ks arts).length := by
  classical
  set l := (sortedScored pd now ks arts).map Prod.snd with hl
  set p := fun a : Article =>
    decide (a.url ∉ (recommendedOf pd now ks arts).map Article.url) with hp
  have hsplit : l.filter p ++ l.filter (fun a => !(p a)) ~ l := List.filter_append_perm p l
  have hlen : (l.filter p).length + (l.filter (fun a => !(p a))).length = l.length := by
    have h2 := hsplit.length_eq
    rwa [List.length_append] at h2
  have hnd_l : (l.map Article.url).Nodup := by
    have h3 : l.map Article.url = (sortedScored pd now ks arts).map (fun q => q.2.url) := by
      rw [hl, List.map_map]
      rfl
    rw [h3]
    exact nodup_sortedScored_urls hnd
  have hdrop : ((l.filter (fun a => !(p a))).map Article.url).Nodup :=
    hnd_l.sublist ((List.filter_sublist l).map Article.url)
  have hsub : (l.filter (fun a => !(p a))).map Article.url
      ⊆ (recommendedOf pd now ks arts).map Article.url := by
    intro x hx
    obtain ⟨b, hb, rfl⟩ := List.mem_map.mp hx
    have h4 := (List.mem_filter.mp hb).2
    simp only [Bool.not_eq_true'] at h4
    simp only [hp] at h4
    exact not_not.mp (of_decide_eq_false h4)
  have hle : (l.filter (fun a => !(p a))).length
      ≤ (recommendedOf pd now ks arts).length := by
    have h6 := (hdrop.subperm hsub).length_le
    simpa using h6
  have hlen_l : l.length = arts.length := snd_sortedScored_length hall
  have hrem : (remainingOf pd now ks arts).length = (l.filter p).length := rfl
  omega

/-- The ten scoreable candidates for the C4 counterexample would need; here
instead: ten candidates of which six have empty text (the counterexample),
built inline in the statements below. -/
def artsC4bad : List Article :=
  [⟨"rocket alpha", "", "r1", "2001"⟩, ⟨"rocket beta", "", "r2", "2002"⟩,
   ⟨"plain words", "", "z1", "2003"⟩, ⟨"other words", "", "z2", "2004"⟩,
   ⟨"", "", "b1", "2005"⟩, ⟨"", "", "b2", "2006"⟩, ⟨"", "", "b3", "2007"⟩,
   ⟨"", "", "b4", "2008"⟩, ⟨"", "", "b5", "2009"⟩, ⟨"", "", "b6", "2010"⟩]

/-- Ten scoreable candidates, exactly two of which score positively. -/
def artsC4good : List Article :=
  [⟨"rocket alpha", "", "w1", "2001"⟩, ⟨"rocket beta", "", "w2", "2002"⟩,
   ⟨"plain stuff three", "", "w3", "2003"⟩, ⟨"plain stuff four", "", "w4", "2004"⟩,
   ⟨"plain stuff five", "", "w5", "2005"⟩, ⟨"plain stuff sixx", "", "w6", "2006"⟩,
   ⟨"plain stuff seven", "", "w7", "2007"⟩, ⟨"plain stuff eight", "", "w8", "2008"⟩,
   ⟨"plain stuff nine", "", "w9", "2009"⟩, ⟨"plain stuff tenn", "", "w0", "2010"⟩]

/-- C4 (counterexample): as stated the claim fails when some of the ten
candidates were dropped for empty text: the backfill draws only from scored
articles (line 719 reads `scored_articles`), so with six blank-text
candidates the output has 4 articles, not the claimed 5, although scoring
yielded exactly 2 qualifying candidates, `min_recommendations = 5`, and 10
total candidates exist. -/
theorem C4_counterexample :
    artsC4bad.length = 10 ∧
    (recommendedOf pdNone 0 (effectiveSets [likeRocket]) artsC4bad).length = 2 ∧
    (get_personalized_recommendations pdNone 0 "u" artsC4bad [likeRocket] 5).length = 4 ∧
    (get_personalized_recommendations pdNone 0 "u" artsC4bad [likeRocket] 5).length ≠ 5 := by
  refine ⟨by decide, by decide, by decide, by decide⟩


/-- C4 (amended): when additionally all ten candidates are scoreable
(nonempty keyword text) and the urls are distinct, the claim holds: the
output has exactly 5 unique articles; the first 2 are the qualifying
(positively scored) candidates in descending score order; the remaining 3
are non-qualifying, ordered by `publishedAt` descending, and each is at
least as recent as every candidate left out of the output. -/
theorem C4_theorem (pd : String → Option Int) (now : Int) (uid : String)
    (arts : List Article) (acts : List Interaction)
    (huid : uid ≠ "") (hacts : acts ≠ [])
    (hnd : (arts.map Article.url).Nodup)
    (hall : ∀ a ∈ arts, scoreable a = true)
    (hlen10 : arts.length = 10)
    (hrec2 : (recommendedOf pd now (effectiveSets acts) arts).length = 2) :
    (get_personalized_recommendations pd now uid arts acts 5).length = 5 ∧
    ((get_personalized_recommendations pd now uid arts acts 5).map Article.url).Nodup ∧
    (get_personalized_recommendations pd now uid arts acts 5).take 2
      = recommendedOf pd now (effectiveSets acts) arts ∧
    (∀ x ∈ (get_personalized_recommendations pd now uid arts acts 5).take 2,
      0 < articleScore pd now (effectiveSets acts) x) ∧
    ((get_personalized_recommendations pd now uid arts acts 5).take 2).Pairwise
      (fun x y => articleScore pd now (effectiveSets acts) y
        ≤ articleScore pd now (effectiveSets acts) x) ∧
    ((get_personalized_recommendations pd now uid arts acts 5).drop 2).Pairwise byDateDesc ∧
    (∀ x ∈ (get_personalized_recommendations pd now uid arts acts 5).drop 2,
      articleScore pd now (effectiveSets acts) x ≤ 0) ∧
    (∀ x ∈ (get_personalized_recommendations pd now uid arts acts 5).drop 2,
      ∀ b ∈ arts, b ∉ get_personalized_recommendations pd now uid arts acts 5 →
        byDateDesc x b) := by
  have harts : arts ≠ [] := by
    intro h
    rw [h] at hlen10
    simp at hlen10
  set ks := effectiveSets acts with hks
  rw [gpr_active huid harts hacts, rankArticles]
  have h1 := length_arts_le_remaining_add_recommended pd now ks arts hnd hall
  set recs := recommendedOf pd now ks arts with hrecs
  set rem := remainingOf pd now ks arts with hrem2
  set bfs := rem.insertionSort byDateDesc with hbfs
  have hrem_ge : 3 ≤ rem.length := by omega
  have h52 : 5 - recs.length = 3 := by rw [hrec2]
  have hrankfull : rankFull pd now ks arts 5 = recs ++ bfs.take 3 := by
    rw [rankFull, if_pos (show (recommendedOf pd now ks arts).length < 5 by
      rw [← hrecs, hrec2]; omega)]
    rw [← hrecs, ← hrem2, ← hbfs, h52]
  have hbfs_len : (bfs.take 3).length = 3 := by
    rw [List.length_take, hbfs, List.length_insertionSort]
    omega
  have hfull_len : (recs ++ bfs.take 3).length = 5 := by
    rw [List.length_append, hrec2, hbfs_len]
  have houtput : (rankFull pd now ks arts 5).take DEFAULT_PAGE_SIZE = recs ++ bfs.take 3 := by
    rw [hrankfull]
    exact List.take_of_length_le (by rw [hfull_len]; decide)
  rw [houtput]
  have hnd_full : ((recs ++ bfs.take 3).map Article.url).Nodup := by
    have h2 : ((rankFull pd now ks arts 5).map Article.url).Nodup := nodup_rankFull_urls hnd
    rwa [hrankfull] at h2
  have htake2 : (recs ++ bfs.take 3).take 2 = recs := by
    rw [List.take_append_eq_append_take, List.take_of_length_le (le_of_eq hrec2), hrec2]
    simp
  have hdrop2 : (recs ++ bfs.take 3).drop 2 = bfs.take 3 := by
    rw [List.drop_append_eq_append_drop, List.drop_eq_nil_of_le (le_of_eq hrec2), hrec2]
    simp
  refine ⟨hfull_len, hnd_full, htake2, ?_, ?_, ?_, ?_, ?_⟩
  · rw [htake2]
    intro x hx
    exact (mem_recommendedOf_iff.mp hx).2.2
  · rw [htake2]
    have hpw := sortedScored_pairwise pd now ks arts
    have hpwf : ((sortedScored pd now ks arts).filter
        (fun p => decide (0 < p.1))).Pairwise byScoreDesc :=
      hpw.sublist (List.filter_sublist _)
    rw [hrecs, recommendedOf, List.pairwise_map]
    refine hpwf.imp_of_mem ?_
    intro p q hp hq hpq
    have hp2 := mem_sortedScored_iff.mp ((List.filter_sublist _).subset hp)
    have hq2 := mem_sortedScored_iff.mp ((List.filter_sublist _).subset hq)
    have hp1 : p.1 = articleScore pd now ks p.2 := by rw [hp2.2.2]
    have hq1 : q.1 = articleScore pd now ks q.2 := by rw [hq2.2.2]
    rw [← hp1, ← hq1]
    exact hpq
  · rw [hdrop2]
    exact List.Pairwise.sublist (List.take_sublist 3 bfs)
      (List.sorted_insertionSort byDateDesc rem)
  · rw [hdrop2]
    intro x hx
    have hxrem : x ∈ rem :=
      (List.perm_insertionSort byDateDesc rem).subset ((List.take_sublist _ _).subset hx)
    have hx2 := mem_remainingOf_iff.mp hxrem
    by_contra hcon
    push_neg at hcon
    exact hx2.2 (List.mem_map.mpr
      ⟨x, mem_recommendedOf_iff.mpr ⟨hx2.1.1, hx2.1.2, hcon⟩, rfl⟩)
  · rw [hdrop2]
    intro x hx b hbarts hbout
    have hbrec : b ∉ recs := fun hc => hbout (List.mem_append.mpr (Or.inl hc))
    have hbtake : b ∉ bfs.take 3 := fun hc => hbout (List.mem_append.mpr (Or.inr hc))
    have hburl : b.url ∉ recs.map Article.url := by
      intro hc
      obtain ⟨c, hc1, hc2⟩ := List.mem_map.mp hc
      have hcarts : c ∈ arts := (mem_recommendedOf_iff.mp hc1).1
      have hbc : b = c := List.inj_on_of_nodup_map hnd hbarts hcarts hc2.symm
      exact hbrec (hbc ▸ hc1)
    have hbrem : b ∈ rem := mem_remainingOf_iff.mpr ⟨⟨hbarts, hall b hbarts⟩, hburl⟩
    have hbbfs : b ∈ bfs := (List.perm_insertionSort byDateDesc rem).symm.subset hbrem
    have hbdrop : b ∈ bfs.drop 3 := by
      rw [← List.take_append_drop 3 bfs] at hbbfs
      rcases List.mem_append.mp hbbfs with h3 | h3
      · exact absurd h3 hbtake
      · exact h3
    exact List.Sorted.rel_of_mem_take_of_mem_drop
      (List.sorted_insertionSort byDateDesc rem) hx hbdrop


/-- C4 (witness): the amended backfill claim instantiated on ten scoreable
candidates of which exactly two score positively. -/
theorem C4_witness :
    (get_personalized_recommendations pdNone 0 "u" artsC4good [likeRocket] 5).length = 5 ∧
    ((get_personalized_recommendations pdNone 0 "u" artsC4good [likeRocket] 5).map
      Article.url).Nodup ∧
    (get_personalized_recommendations pdNone 0 "u" artsC4good [likeRocket] 5).take 2
      = recommendedOf pdNone 0 (effectiveSets [likeRocket]) artsC4good ∧
    (∀ x ∈ (get_personalized_recommendations pdNone 0 "u" artsC4good [likeRocket] 5).take 2,
      0 < articleScore pdNone 0 (effectiveSets [likeRocket]) x) ∧
    ((get_personalized_recommendations pdNone 0 "u" artsC4good [likeRocket] 5).take 2).Pairwise
      (fun x y => articleScore pdNone 0 (effectiveSets [likeRocket]) y
        ≤ articleScore pdNone 0 (effectiveSets [likeRocket]) x) ∧
    ((get_personalized_recommendations pdNone 0 "u" artsC4good [likeRocket] 5).drop
      2).Pairwise byDateDesc ∧
    (∀ x ∈ (get_personalized_recommendations pdNone 0 "u" artsC4good [likeRocket] 5).drop 2,
      articleScore pdNone 0 (effectiveSets [likeRocket]) x ≤ 0) ∧
    (∀ x ∈ (get_personalized_recommendations pdNone 0 "u" artsC4good [likeRocket] 5).drop 2,
      ∀ b ∈ artsC4good,
        b ∉ get_personalized_recommendations pdNone 0 "u" artsC4good [likeRocket] 5 →
          byDateDesc x b) :=
  C4_theorem pdNone 0 "u" artsC4good [likeRocket] (by decide) (by decide) (by decide)
    (by decide) (by decide) (by decide)

end NewsApp
